import Mathlib

/-! Formal model of the hw3 game-hosting platform servers, shallowly embedded
    from the Python sources: the metadata store (`db_server.py`), the central
    directory server (`central_lobby_server.py`), the per-game lobby server
    (`game_lobby_server.py`) and the grid-game room server
    (`TTT_GUI/v1/run_room_server.py`).  Machine-level effects (sockets,
    subprocesses, zip extraction, the filesystem) are modelled by explicit
    state records and oracle parameters, as noted at each definition. -/

/-! ## Python value helpers -/

/-- Truthiness of an optional Python string: `None` and `""` are falsy. -/
def pyTruthyStr : Option String → Bool
  | none => false
  | some s => s ≠ ""

/-- Python `a or b` on optional strings (`None`/`""` falsy). -/
def pyOrStr (a b : Option String) : Option String :=
  if pyTruthyStr a then a else b

/-- Python `a or b` where `a` is an optional integer (`None` and `0` falsy)
    and `b` an integer default. -/
def pyOrInt (a : Option Int) (b : Int) : Int :=
  match a with
  | none => b
  | some n => if n = 0 then b else n

/-- Python `a or b` on two integers (`0` falsy). -/
def pyOrIntI (a b : Int) : Int := if a = 0 then b else a

/-- Replace the first element satisfying `q` by its image under `f`
    (models mutating the object found by a linear scan of a Python list,
    or writing through a dict entry). -/
def updateFirst (q : α → Bool) (f : α → α) : List α → List α
  | [] => []
  | x :: xs => if q x then f x :: xs else x :: updateFirst q f xs

/-- Lookup in an association list modelling a Python dict. -/
def getAssoc [DecidableEq κ] : List (κ × α) → κ → Option α
  | [], _ => none
  | e :: rest, k => if e.1 = k then some e.2 else getAssoc rest k

/-- Insert-or-overwrite in an association list modelling a Python dict. -/
def setAssoc [DecidableEq κ] : List (κ × α) → κ → α → List (κ × α)
  | [], k, v => [(k, v)]
  | e :: rest, k, v => if e.1 = k then (k, v) :: rest else e :: setAssoc rest k v

/-- Remove the entry for key `k` (models `dict.pop(k, None)`). -/
def eraseAssoc [DecidableEq κ] : List (κ × α) → κ → List (κ × α)
  | [], _ => []
  | e :: rest, k => if e.1 = k then rest else e :: eraseAssoc rest k

/-! ## Rounding (Python `round(x, 1)` on the mean of scores)

    `statistics.mean` of integers divides exactly; Python's `round` rounds
    half to even.  We model the computation over `ℚ`. -/

/-- Round a rational to the nearest integer, ties to even (Python `round`). -/
def roundHalfEven (q : ℚ) : ℤ :=
  let f := q.floor
  let r := q - (f : ℚ)
  if r < 1/2 then f
  else if 1/2 < r then f + 1
  else if f % 2 = 0 then f else f + 1

/-- Python `round(q, 1)`: round to one decimal place, ties to even. -/
def pyRound1 (q : ℚ) : ℚ := (roundHalfEven (q * 10) : ℚ) / 10

/-- Arithmetic mean of a list of integer scores, as a rational. -/
def meanQ (l : List ℤ) : ℚ := (l.sum : ℚ) / (l.length : ℚ)

/-! ## Metadata store records (`db_server.py`) -/

/-- A user record (`users.json` entry). -/
structure UserRec where
  username : String
  password : String
  games : List String
  games_own : List String
  deriving DecidableEq, Repr

/-- A game record (`games.json` entry).  `author` is optional because
    `upsert_game` accepts `author : Optional[str]`. -/
structure Game where
  game_name : String
  version : String
  filename : String
  storage_path : String
  description : String
  author : Option String
  rating : Option ℚ
  extracted_path : Option String
  min_players : Int
  max_players : Int
  deriving DecidableEq, Repr

/-- A comment record (`comments.json` entry). -/
structure CommentRec where
  game_name : String
  username : String
  score : Int
  comment : String
  deriving DecidableEq, Repr

/-- The `db_server.STORAGE_DIR` base (a fixed path in the source). -/
def STORAGE_DIR : String := "db/storage"

/-- Path `STORAGE_DIR/<game_name>/<filename>` as computed by `upsert_game`
    (and by `ensure_game_storage_dir` + `/ filename` in `handle_dev`). -/
def storagePathOf (game_name filename : String) : String :=
  STORAGE_DIR ++ "/" ++ game_name ++ "/" ++ filename

/-- Lookup of a game record by name (`db_server.get_game`, first match). -/
def get_game (games : List Game) (game_name : String) : Option Game :=
  games.find? (fun g => g.game_name = game_name)

/-- Mark `game_name` as owned by `username` (`db_server._add_owned_game`):
    every user record with that name gains the game in `games_own` if absent;
    a falsy username is a no-op. -/
def add_owned_game (users : List UserRec) (username : Option String) (game_name : String) :
    List UserRec :=
  if pyTruthyStr username then
    users.map (fun u =>
      if some u.username = username then
        { u with games_own := if game_name ∈ u.games_own then u.games_own
                              else u.games_own ++ [game_name] }
      else u)
  else users

/-- Record a download (`db_server.record_download`): append `game_name` to the
    `games` list of every matching user if absent; empty username is a no-op. -/
def record_download (users : List UserRec) (username game_name : String) : List UserRec :=
  if username = "" then users
  else
    users.map (fun u =>
      if u.username = username then
        { u with games := if game_name ∈ u.games then u.games
                          else u.games ++ [game_name] }
      else u)

/-- Insert or update a game record (`db_server.upsert_game`).  On update the
    found record is mutated in place: `description`, `author`,
    `extracted_path`, `min_players`, `max_players` follow Python `or`
    fallbacks; on insert a fresh record is appended.  The source finally calls
    `_add_owned_game(author, game_name)`, so users are updated too.
    Returns (games, users, stored record). -/
def upsert_game (games : List Game) (users : List UserRec)
    (game_name version filename : String) (author : Option String)
    (description : String) (extracted_path : Option String)
    (min_players max_players : Option Int) :
    List Game × List UserRec × Game :=
  let stored_path := storagePathOf game_name filename
  let result :=
    match get_game games game_name with
    | some existing =>
        let updated : Game :=
          { existing with
            version := version
            filename := filename
            storage_path := stored_path
            description := if description ≠ "" then description else existing.description
            author := pyOrStr existing.author author
            extracted_path := pyOrStr extracted_path existing.extracted_path
            min_players := pyOrInt min_players (pyOrIntI existing.min_players 1)
            max_players := pyOrInt max_players (pyOrIntI existing.max_players 4) }
        (updateFirst (fun g : Game => g.game_name = game_name) (fun _ => updated) games, updated)
    | none =>
        let fresh : Game :=
          { game_name := game_name
            version := version
            filename := filename
            storage_path := stored_path
            description := description
            author := author
            rating := none
            extracted_path := extracted_path
            min_players := pyOrInt min_players 1
            max_players := pyOrInt max_players 4 }
        (games ++ [fresh], fresh)
  (result.1, add_owned_game users author game_name, result.2)

/-- Comments recorded for one game (`db_server.list_comments`). -/
def list_comments (comments : List CommentRec) (game_name : String) : List CommentRec :=
  comments.filter (fun c => c.game_name = game_name)

/-- Upsert a comment by `(game_name, username)` (`db_server.add_comment`):
    any prior comment by the same user on the same game is dropped before
    the new one is appended. -/
def add_comment (comments : List CommentRec) (game_name username : String)
    (score : Int) (comment : String) : List CommentRec :=
  (comments.filter (fun c => ¬ (c.game_name = game_name ∧ c.username = username))) ++
    [{ game_name := game_name, username := username, score := score, comment := comment }]

/-! ## Rating computation (central server, `handle_store`) -/

/-- Rating over a list of comments as computed inline by `handle_store`
    (`get_game_detail` and `add_comment` both use this expression):
    `round(mean([c.get("score", 0) for c in comments]), 1)` if the list is
    non-empty, else `None`. -/
def ratingOfComments (cs : List CommentRec) : Option ℚ :=
  if cs.isEmpty then none
  else some (pyRound1 (meanQ (cs.map (fun c => c.score))))

/-- Rating attached by `get_game_detail` for a game: the inline rating of
    `db_server.list_comments(game_name)`. -/
def getGameDetailRating (comments : List CommentRec) (game_name : String) : Option ℚ :=
  ratingOfComments (list_comments comments game_name)

/-- Rating as worded by the specification: `round(mean(scores), 1)` across all
    comments currently recorded for the game, or `null` when there are none. -/
def ratingSpec (comments : List CommentRec) (game_name : String) : Option ℚ :=
  let scores : List ℤ :=
    (comments.filter (fun c => c.game_name = game_name)).map (fun c => c.score)
  if scores.isEmpty then none
  else some (pyRound1 ((scores.sum : ℚ) / (scores.length : ℚ)))

/-! ## The `add_comment` request handler (central server, `handle_store`) -/

/-- The JSON field `data.get("score")` after the handler's `int(score)`
    attempt: the key may be absent (or `None`), hold a value `int()` rejects,
    or convert to an integer. -/
inductive ScoreField
  | absent
  | nonInt
  | int (k : Int)
  deriving DecidableEq, Repr

/-- Replies of the `add_comment` branch of `handle_store`. -/
inductive AddCommentReply
  | notAuthenticated
  | invalidRequest
  | invalidScore
  | ok (game_name : String) (comments : List CommentRec) (rating : Option ℚ)
  deriving DecidableEq, Repr

/-- The `add_comment` branch of `handle_store`: requires an authenticated
    session, a truthy `game_name` and a present score; rejects only scores
    `int()` cannot convert; stores the comment and replies with the updated
    comment list and rating. -/
def handleAddComment (ctxUsername : Option String) (comments : List CommentRec)
    (game_name : String) (score : ScoreField) (commentText : String) :
    List CommentRec × AddCommentReply :=
  if ¬ pyTruthyStr ctxUsername then (comments, .notAuthenticated)
  else if game_name = "" ∨ score = .absent then (comments, .invalidRequest)
  else
    match score with
    | .absent => (comments, .invalidRequest)
    | .nonInt => (comments, .invalidScore)
    | .int k =>
        let user := match ctxUsername with
          | some s => if s ≠ "" then s else "anonymous"
          | none => "anonymous"
        let newComments := add_comment comments game_name user k commentText
        let updated := list_comments newComments game_name
        (newComments, .ok game_name updated (ratingOfComments updated))

/-- Claim C3: against the specification, the server accepts an out-of-range
    score.  An authenticated `add_comment` with score 7 (outside 1..5) is
    answered `ok` — not `INVALID_SCORE` — and the comment is recorded. -/
theorem addComment_accepts_out_of_range_score :
    (handleAddComment (some "alice") [] "g" (.int 7) "bad").1 =
      [{ game_name := "g", username := "alice", score := 7, comment := "bad" }] ∧
    (handleAddComment (some "alice") [] "g" (.int 7) "bad").2 =
      .ok "g" [{ game_name := "g", username := "alice", score := 7, comment := "bad" }]
        (ratingOfComments
          [{ game_name := "g", username := "alice", score := 7, comment := "bad" }]) :=
  ⟨rfl, rfl⟩

/-- Claim C9: the rating returned by `get_game_detail`, and the rating in a
    successful `add_comment` reply, both equal `round(mean(scores), 1)` over
    all comments currently recorded for that game (`null` when none). -/
theorem rating_is_rounded_mean :
    (∀ (comments : List CommentRec) (g : String),
      getGameDetailRating comments g = ratingSpec comments g) ∧
    (∀ (comments : List CommentRec) (g u : String) (k : Int) (txt : String),
      u ≠ "" → g ≠ "" →
      (handleAddComment (some u) comments g (.int k) txt).2 =
        .ok g (list_comments (add_comment comments g u k txt) g)
          (ratingSpec (add_comment comments g u k txt) g)) := by
  have hmain : ∀ (comments : List CommentRec) (g : String),
      getGameDetailRating comments g = ratingSpec comments g := by
    intro comments g
    unfold getGameDetailRating ratingOfComments ratingSpec list_comments meanQ
    simp only [List.isEmpty_iff, List.map_eq_nil_iff, List.length_map]
  refine ⟨hmain, ?_⟩
  intro comments g u k txt hu hg
  have ht : ¬ pyTruthyStr (some u) = false := by simp [pyTruthyStr, hu]
  unfold handleAddComment
  rw [if_neg (by simpa using ht), if_neg (by simp [hg])]
  have huser : (if u ≠ "" then u else "anonymous") = u := if_pos hu
  have hrat := hmain (add_comment comments g u k txt) g
  unfold getGameDetailRating at hrat
  simp only [huser, hrat]

/-- Claim C9 witness: the rating formula evaluated after one concrete
    `add_comment`. -/
theorem rating_is_rounded_mean_witness :
    ("bob" : String) ≠ "" ∧ ("g" : String) ≠ "" ∧
    (handleAddComment (some "bob") [] "g" (.int 4) "nice").2 =
      .ok "g" (list_comments (add_comment [] "g" "bob" 4 "nice") "g")
        (ratingSpec (add_comment [] "g" "bob" 4 "nice") "g") :=
  ⟨by decide, by decide,
    rating_is_rounded_mean.2 [] "g" "bob" 4 "nice" (by decide) (by decide)⟩

/-! ## Generic lemmas about `find?` and `updateFirst` -/

lemma updateFirst_find?_same {α : Type} (q : α → Bool) (f : α → α)
    (hq : ∀ a, q a = true → q (f a) = true) (l : List α) :
    (updateFirst q f l).find? q = (l.find? q).map f := by
  induction l with
  | nil => rfl
  | cons x xs ih =>
    by_cases h : q x
    · simp [updateFirst, h, List.find?_cons_of_pos, hq x h]
    · simp [updateFirst, h, List.find?_cons_of_neg, ih]

lemma updateFirst_find?_other {α : Type} (q p : α → Bool) (f : α → α)
    (hx : ∀ a, q a = true → p a = false) (hfx : ∀ a, q a = true → p (f a) = false)
    (l : List α) :
    (updateFirst q f l).find? p = l.find? p := by
  induction l with
  | nil => rfl
  | cons x xs ih =>
    by_cases h : q x
    · simp [updateFirst, h, List.find?_cons, hx x h, hfx x h]
    · by_cases hp : p x
      · simp [updateFirst, h, List.find?_cons_of_pos, hp]
      · simp [updateFirst, h, List.find?_cons_of_neg, hp, ih]

lemma find?_append_some {α : Type} (p : α → Bool) (l₁ l₂ : List α) (a : α)
    (h : l₁.find? p = some a) : (l₁ ++ l₂).find? p = some a := by
  induction l₁ with
  | nil => simp at h
  | cons x xs ih =>
    rw [List.cons_append]
    by_cases hp : p x
    · rw [List.find?_cons_of_pos _ hp] at h ⊢; exact h
    · rw [List.find?_cons_of_neg _ hp] at h ⊢; exact ih h

lemma find?_append_none {α : Type} (p : α → Bool) (l₁ l₂ : List α)
    (h : l₁.find? p = none) : (l₁ ++ l₂).find? p = l₂.find? p := by
  induction l₁ with
  | nil => rfl
  | cons x xs ih =>
    rw [List.cons_append]
    by_cases hp : p x
    · rw [List.find?_cons_of_pos _ hp] at h; exact absurd h (by simp)
    · rw [List.find?_cons_of_neg _ hp] at h ⊢; exact ih h

/-! ## Claim C10: `upsert_game` never changes a non-empty stored author -/

/-- Argument tuple of one `upsert_game` call. -/
structure UpsertArgs where
  game_name : String
  version : String
  filename : String
  author : Option String
  description : String
  extracted_path : Option String
  min_players : Option Int
  max_players : Option Int
  deriving DecidableEq, Repr

/-- Apply one `upsert_game` call to the `(games, users)` store. -/
def applyUpsert (st : List Game × List UserRec) (a : UpsertArgs) :
    List Game × List UserRec :=
  let r := upsert_game st.1 st.2 a.game_name a.version a.filename a.author
    a.description a.extracted_path a.min_players a.max_players
  (r.1, r.2.1)

/-- Apply a sequence of `upsert_game` calls. -/
def applyUpserts (st : List Game × List UserRec) (ops : List UpsertArgs) :
    List Game × List UserRec :=
  ops.foldl applyUpsert st

lemma upsert_step_preserves_truthy_author (games : List Game) (users : List UserRec)
    (n v fn : String) (a : Option String) (d : String) (ep : Option String)
    (mi ma : Option Int) (g : String) (gm : Game)
    (hg : get_game games g = some gm) (ha : pyTruthyStr gm.author = true) :
    ∃ gm', get_game (upsert_game games users n v fn a d ep mi ma).1 g = some gm' ∧
      gm'.author = gm.author := by
  have hgm : gm.game_name = g := by
    have := List.find?_some hg
    simpa using this
  by_cases hn : n = g
  · subst hn
    have hfq : get_game (upsert_game games users n v fn a d ep mi ma).1 n =
        some { gm with
               version := v
               filename := fn
               storage_path := storagePathOf n fn
               description := if d ≠ "" then d else gm.description
               author := pyOrStr gm.author a
               extracted_path := pyOrStr ep gm.extracted_path
               min_players := pyOrInt mi (pyOrIntI gm.min_players 1)
               max_players := pyOrInt ma (pyOrIntI gm.max_players 4) } := by
      simp only [upsert_game, hg]
      unfold get_game
      rw [updateFirst_find?_same _ _ (fun x _ => by simpa using hgm) games]
      unfold get_game at hg
      rw [hg]
      rfl
    refine ⟨_, hfq, ?_⟩
    show pyOrStr gm.author a = gm.author
    unfold pyOrStr
    rw [if_pos ha]
  · rcases hfind : get_game games n with _ | e
    · have hfq : get_game (upsert_game games users n v fn a d ep mi ma).1 g = some gm := by
        simp only [upsert_game, hfind]
        unfold get_game at hg ⊢
        exact find?_append_some _ _ _ _ hg
      exact ⟨gm, hfq, rfl⟩
    · have he : e.game_name = n := by
        have := List.find?_some hfind
        simpa using this
      have hx : ∀ x : Game, (decide (x.game_name = n)) = true →
          (decide (x.game_name = g)) = false := by
        intro x hxx
        simp only [decide_eq_true_eq] at hxx
        simp [hxx, hn]
      have hfq : get_game (upsert_game games users n v fn a d ep mi ma).1 g = some gm := by
        simp only [upsert_game, hfind]
        unfold get_game at hg ⊢
        rw [updateFirst_find?_other _ _ _ hx (fun x _ => by simp [he, hn]) games]
        exact hg
      exact ⟨gm, hfq, rfl⟩

/-- Claim C10: once a game record carries a non-empty author, every later
    `upsert_game` call preserves it, whatever author argument is passed; so a
    game created with a non-empty author keeps that author through any
    sequence of upserts. -/
theorem upsert_author_immutable :
    (∀ (games : List Game) (users : List UserRec) (g : String) (gm : Game)
        (ops : List UpsertArgs),
      get_game games g = some gm → pyTruthyStr gm.author = true →
      ∃ gm', get_game (applyUpserts (games, users) ops).1 g = some gm' ∧
        gm'.author = gm.author) ∧
    (∀ (games : List Game) (users : List UserRec) (v fn u d : String)
        (e : Option String) (mi ma : Option Int) (g : String)
        (ops : List UpsertArgs),
      get_game games g = none → u ≠ "" →
      ∃ gm', get_game (applyUpserts
          (applyUpsert (games, users) ⟨g, v, fn, some u, d, e, mi, ma⟩) ops).1 g =
            some gm' ∧ gm'.author = some u) := by
  have part1 : ∀ (ops : List UpsertArgs) (st : List Game × List UserRec)
      (g : String) (gm : Game),
      get_game st.1 g = some gm → pyTruthyStr gm.author = true →
      ∃ gm', get_game (applyUpserts st ops).1 g = some gm' ∧
        gm'.author = gm.author := by
    intro ops
    induction ops with
    | nil => intro st g gm hg _; exact ⟨gm, hg, rfl⟩
    | cons a ops ih =>
      intro st g gm hg ha
      obtain ⟨gm', hg', hauth⟩ := upsert_step_preserves_truthy_author st.1 st.2
        a.game_name a.version a.filename a.author a.description a.extracted_path
        a.min_players a.max_players g gm hg ha
      have ha' : pyTruthyStr gm'.author = true := hauth ▸ ha
      obtain ⟨gm'', hg'', hauth'⟩ := ih (applyUpsert st a) g gm' hg' ha'
      exact ⟨gm'', hg'', hauth'.trans hauth⟩
  refine ⟨fun games users g gm ops hg ha => part1 ops (games, users) g gm hg ha, ?_⟩
  intro games users v fn u d e mi ma g ops hnone hu
  have hcreate : get_game (applyUpsert (games, users) ⟨g, v, fn, some u, d, e, mi, ma⟩).1 g =
      some { game_name := g, version := v, filename := fn,
             storage_path := storagePathOf g fn, description := d,
             author := some u, rating := none, extracted_path := e,
             min_players := pyOrInt mi 1, max_players := pyOrInt ma 4 } := by
    show get_game (upsert_game games users g v fn (some u) d e mi ma).1 g = _
    simp only [upsert_game, hnone]
    unfold get_game at hnone ⊢
    rw [find?_append_none _ _ _ hnone]
    simp
  have ht : pyTruthyStr (some u) = true := by simp [pyTruthyStr, hu]
  obtain ⟨gm', h1, h2⟩ := part1 ops _ g _ hcreate ht
  exact ⟨gm', h1, h2⟩

/-- Concrete game record authored by alice, used by the C10 witness. -/
def gameAlice : Game :=
  { game_name := "g"
    version := "1"
    filename := "g.zip"
    storage_path := storagePathOf "g" "g.zip"
    description := ""
    author := some "alice"
    rating := none
    extracted_path := none
    min_players := 1
    max_players := 4 }

/-- Claim C10 witness: a concrete record authored by alice survives an upsert
    that passes a different author. -/
theorem upsert_author_immutable_witness :
    (get_game [gameAlice] "g" = some gameAlice ∧
      pyTruthyStr gameAlice.author = true) ∧
    (∃ gm', get_game (applyUpserts ([gameAlice], [])
        [⟨"g", "2", "g2.zip", some "mallory", "", none, none, none⟩]).1 "g" =
          some gm' ∧ gm'.author = gameAlice.author) :=
  ⟨⟨by decide, by decide⟩,
    upsert_author_immutable.1 [gameAlice] [] "g" gameAlice
      [⟨"g", "2", "g2.zip", some "mallory", "", none, none, none⟩]
      (by decide) (by decide)⟩

/-! ## Central server sessions (`central_lobby_server.py`, `handle_auth` /
    `handle_client`)

    Connections are identified by numbers.  `ctxUser` maps each live
    connection to its `ClientContext.username`; `clients` is the module-level
    `clients` dict; `active` is `active_usernames`. -/

/-- Central-server session bookkeeping. -/
structure CentralSessions where
  users : List UserRec
  ctxUser : List (Nat × Option String)
  clients : List (Nat × Option String)
  active : List String
  deriving DecidableEq, Repr

/-- Password check (`db_server.authenticate_user`). -/
def authenticate_user (users : List UserRec) (username password : String) : Bool :=
  match users.find? (fun u => u.username = username) with
  | some u => u.password = password
  | none => false

/-- Replies of `handle_auth`. -/
inductive AuthReply
  | invalidRequest
  | userAlreadyLoggedIn
  | invalidCredentials
  | notLoggedIn
  | okLogin (username : String)
  | okLogout (username : String)
  deriving DecidableEq, Repr

/-- Open a connection: `handle_client` registers `clients[conn] = None` and a
    fresh `ClientContext` with `username = None`. -/
def connectSession (st : CentralSessions) (conn : Nat) : CentralSessions :=
  { st with
    clients := setAssoc st.clients conn none
    ctxUser := setAssoc st.ctxUser conn none }

/-- The `login` branch of `handle_auth`: rejects when the username is in
    `active_usernames`; on success records the username in the context, the
    `clients` dict and `active_usernames`. -/
def login (st : CentralSessions) (conn : Nat) (username password : String) :
    CentralSessions × AuthReply :=
  if username = "" ∨ password = "" then (st, .invalidRequest)
  else if username ∈ st.active then (st, .userAlreadyLoggedIn)
  else if authenticate_user st.users username password then
    ({ st with
       ctxUser := setAssoc st.ctxUser conn (some username)
       clients := setAssoc st.clients conn (some username)
       active := if username ∈ st.active then st.active else st.active ++ [username] },
      .okLogin username)
  else (st, .invalidCredentials)

/-- The `logout` branch of `handle_auth`: requires `ctx.username`; pops the
    connection from `clients`, discards the username from `active_usernames`
    and clears the context username. -/
def logout (st : CentralSessions) (conn : Nat) : CentralSessions × AuthReply :=
  match getAssoc st.ctxUser conn with
  | some (some u) =>
      ({ st with
         clients := eraseAssoc st.clients conn
         active := st.active.erase u
         ctxUser := setAssoc st.ctxUser conn none },
        .okLogout u)
  | _ => (st, .notLoggedIn)

/-- Socket close from either side: the `finally` block of `handle_client`
    pops the connection from `clients` (and the handler thread with its
    context ends) but does NOT touch `active_usernames`. -/
def socketClose (st : CentralSessions) (conn : Nat) : CentralSessions :=
  { st with
    clients := eraseAssoc st.clients conn
    ctxUser := eraseAssoc st.ctxUser conn }

/-- Initial central state with one registered user alice. -/
def c1Start : CentralSessions :=
  { users := [{ username := "alice", password := "pw", games := [], games_own := [] }]
    ctxUser := []
    clients := []
    active := [] }

/-- Claim C1: the release-on-close half of the claim fails on the code.
    After `login("alice")` succeeds on session 1 and session 1's socket
    closes, a fresh session 2 still gets `USER_ALREADY_LOGGED_IN` for
    `login("alice")`: `handle_client`'s cleanup removes the connection from
    `clients` but never releases the username from `active_usernames`. -/
theorem login_after_socket_close_still_rejected :
    (login (connectSession c1Start 1) 1 "alice" "pw").2 = .okLogin "alice" ∧
    (login
        (connectSession
          (socketClose (login (connectSession c1Start 1) 1 "alice" "pw").1 1) 2)
        2 "alice" "pw").2 = .userAlreadyLoggedIn := by
  constructor
  · rfl
  · rfl

/-! ## Upload and download (`handle_dev` / `handle_store` of
    `central_lobby_server.py`)

    The filesystem is modelled explicitly: `files` maps an archive path to
    its bytes, `extracted` maps an extraction directory to the file tree
    sitting in it (a present key is an existing directory; `[]` is an empty
    directory).  `zipfile.ZipFile(..).extractall` and the
    `game_config.json` description parse are oracle parameters. -/

/-- Combined server-side store and disk state of the central server. -/
structure CentralDB where
  users : List UserRec
  games : List Game
  comments : List CommentRec
  files : List (String × List Nat)
  extracted : List (String × List (String × List Nat))
  deriving DecidableEq, Repr

/-- The extraction directory `<storage>/<game_name>/extracted`. -/
def extractDirOf (game_name : String) : String :=
  STORAGE_DIR ++ "/" ++ game_name ++ "/extracted"

/-- A JSON integer field after `int(x)`: absent (or `None`), a value `int()`
    rejects, or an integer. -/
inductive IntField
  | absent
  | nonInt
  | val (k : Int)
  deriving DecidableEq, Repr

/-- The `int(min_players) if min_players is not None else 1` /
    `int(max_players) if max_players is not None else max(min_players_int, 4)`
    conversions of `upload_game_file`; `none` models the `except` branch. -/
def playersInts : IntField → IntField → Option (Int × Int)
  | .nonInt, _ => none
  | _, .nonInt => none
  | minF, maxF =>
      let mi := match minF with | .val k => k | _ => 1
      let ma := match maxF with | .val k => k | _ => max mi 4
      some (mi, ma)

/-- The `existing and existing.get("author") and existing.get("author") !=
    ctx.username` rejection condition of `upload_game_file`. -/
def authorConflict (games : List Game) (game_name cu : String) : Prop :=
  match get_game games game_name with
  | some e => pyTruthyStr e.author = true ∧ e.author ≠ some cu
  | none => False

instance (games : List Game) (g cu : String) : Decidable (authorConflict games g cu) :=
  match h : get_game games g with
  | some e => decidable_of_iff (pyTruthyStr e.author = true ∧ e.author ≠ some cu)
      (by unfold authorConflict; rw [h])
  | none => decidable_of_iff False (by unfold authorConflict; rw [h])

/-- Read exactly `size` bytes from the stream (`_read_exact`): for a
    non-positive size the loop body never runs and `b""` is returned; if the
    stream ends early the result is `None`. -/
def read_exact (wire : List Nat) (size : Int) : Option (List Nat) :=
  if size ≤ 0 then some []
  else if (wire.length : Int) < size then none
  else some (wire.take size.toNat)

/-- Description pulled from `game_config.json` inside the extracted tree
    (`json.loads` modelled by the `parseCfgDesc` oracle). -/
def uploadDescription (parseCfgDesc : List Nat → String)
    (tree : List (String × List Nat)) : String :=
  match getAssoc tree "game_config.json" with
  | some bytes => parseCfgDesc bytes
  | none => ""

/-- Replies of the `upload_game_file` branch of `handle_dev`. -/
inductive UploadReply
  | notAuthenticated
  | invalidRequest
  | invalidPlayers
  | gameExistsOtherAuthor
  | uploadFailed
  | unzipFailed
  | ok (game_name version stored_path extracted_path : String)
  deriving DecidableEq, Repr

/-- The `upload_game_file` branch of `handle_dev`.  `unzip` is the
    `zipfile` oracle (`none` = extraction raises); `wire` is what the socket
    delivers after the header.  The archive is written, the previous
    extraction directory is removed and recreated empty, then extraction is
    attempted; only on success is the metadata upserted. -/
def upload_game_file (unzip : List Nat → Option (List (String × List Nat)))
    (parseCfgDesc : List Nat → String) (st : CentralDB)
    (ctxUsername : Option String) (game_name version filename : String)
    (filesize : Option Int) (min_players max_players : IntField)
    (wire : List Nat) : CentralDB × UploadReply :=
  match ctxUsername with
  | none => (st, .notAuthenticated)
  | some cu =>
    if cu = "" then (st, .notAuthenticated)
    else match filesize with
    | none => (st, .invalidRequest)
    | some fsize =>
      if game_name = "" ∨ version = "" ∨ filename = "" then (st, .invalidRequest)
      else match playersInts min_players max_players with
      | none => (st, .invalidPlayers)
      | some (mi, ma) =>
        if mi < 1 ∨ ma < mi then (st, .invalidPlayers)
        else if authorConflict st.games game_name cu then (st, .gameExistsOtherAuthor)
        else match read_exact wire fsize with
        | none => (st, .uploadFailed)
        | some payload =>
          if (payload.length : Int) ≠ fsize then (st, .uploadFailed)
          else
            let dest_path := storagePathOf game_name filename
            let extract_dir := extractDirOf game_name
            let files1 := setAssoc st.files dest_path payload
            let extracted1 := setAssoc st.extracted extract_dir []
            match unzip payload with
            | none => ({ st with files := files1, extracted := extracted1 }, .unzipFailed)
            | some tree =>
              let r := upsert_game st.games st.users game_name version filename
                (some cu) (uploadDescription parseCfgDesc tree) (some extract_dir)
                (some mi) (some ma)
              ({ st with
                 files := files1
                 extracted := setAssoc extracted1 extract_dir tree
                 games := r.1
                 users := r.2.1 },
                .ok game_name version dest_path extract_dir)

/-- Last path component (`os.path.basename` for the paths in play). -/
def basename (p : String) : String := (p.splitOn "/").getLastD p

/-- Replies of the `download_game_file` branch of `handle_store`. -/
inductive DownloadReply
  | notAuthenticated
  | invalidRequest
  | notFound
  | ok (game_name filename : String) (filesize : Nat) (version : String)
      (bytes : List Nat)
  deriving DecidableEq, Repr

/-- The `download_game_file` branch of `handle_store`: looks up the record,
    requires the stored archive to exist on disk, replies with a header
    carrying `os.path.getsize` and streams the file's bytes, then records the
    download for the caller. -/
def download_game_file (st : CentralDB) (ctxUsername : Option String)
    (game_name : String) : CentralDB × DownloadReply :=
  match ctxUsername with
  | none => (st, .notAuthenticated)
  | some cu =>
    if cu = "" then (st, .notAuthenticated)
    else if game_name = "" then (st, .invalidRequest)
    else match get_game st.games game_name with
    | none => (st, .notFound)
    | some game =>
      if game.storage_path = "" then (st, .notFound)
      else match getAssoc st.files game.storage_path with
      | none => (st, .notFound)
      | some content =>
          ({ st with users := record_download st.users cu game_name },
            .ok game_name (basename game.storage_path) content.length
              game.version content)

lemma read_exact_full (B : List Nat) : read_exact B ((B.length : Nat) : Int) = some B := by
  unfold read_exact
  rcases B with _ | ⟨b, bs⟩
  · simp
  · rw [if_neg (by simp), if_neg (by simp)]
    simp

lemma getAssoc_setAssoc_self {κ : Type} [DecidableEq κ] (l : List (κ × α)) (k : κ) (v : α) :
    getAssoc (setAssoc l k v) k = some v := by
  induction l with
  | nil => simp [setAssoc, getAssoc]
  | cons e rest ih =>
    by_cases h : e.1 = k
    · simp [setAssoc, getAssoc, h]
    · simp [setAssoc, getAssoc, h, ih]

lemma storagePathOf_ne_empty (g fn : String) : storagePathOf g fn ≠ "" := by
  intro h
  have hlen : (storagePathOf g fn).length = 0 := by rw [h]; rfl
  unfold storagePathOf STORAGE_DIR at hlen
  have h10 : ("db/storage" : String).length = 10 := rfl
  have h1 : ("/" : String).length = 1 := rfl
  simp only [String.length_append, h10, h1] at hlen
  omega

lemma get_game_upsert_self (games : List Game) (users : List UserRec)
    (n v fn : String) (a : Option String) (d : String) (ep : Option String)
    (mi ma : Option Int) :
    get_game (upsert_game games users n v fn a d ep mi ma).1 n =
      some (upsert_game games users n v fn a d ep mi ma).2.2 := by
  rcases hfind : get_game games n with _ | e
  · simp only [upsert_game, hfind]
    unfold get_game at hfind ⊢
    rw [find?_append_none _ _ _ hfind]
    simp
  · have he : e.game_name = n := by
      have := List.find?_some hfind
      simpa using this
    simp only [upsert_game, hfind]
    unfold get_game
    rw [updateFirst_find?_same _ _ (fun x _ => by simpa using he) games]
    unfold get_game at hfind
    rw [hfind]
    rfl

lemma upsert_version_storage (games : List Game) (users : List UserRec)
    (n v fn : String) (a : Option String) (d : String) (ep : Option String)
    (mi ma : Option Int) :
    (upsert_game games users n v fn a d ep mi ma).2.2.version = v ∧
    (upsert_game games users n v fn a d ep mi ma).2.2.storage_path = storagePathOf n fn := by
  rcases hfind : get_game games n with _ | e <;> simp [upsert_game, hfind]

lemma upload_eval_unzip_none (unzip : List Nat → Option (List (String × List Nat)))
    (pcd : List Nat → String) (st : CentralDB) (cu g v fn : String)
    (minF maxF : IntField) (mi ma : Int) (B : List Nat)
    (hcu : cu ≠ "") (hg : g ≠ "") (hv : v ≠ "") (hf : fn ≠ "")
    (hp : playersInts minF maxF = some (mi, ma)) (hmi : 1 ≤ mi) (hma : mi ≤ ma)
    (hauth : ¬ authorConflict st.games g cu) (hzip : unzip B = none) :
    upload_game_file unzip pcd st (some cu) g v fn (some (B.length : Int)) minF maxF B =
      ({ st with files := setAssoc st.files (storagePathOf g fn) B,
                 extracted := setAssoc st.extracted (extractDirOf g) [] },
        .unzipFailed) := by
  have h1 : ¬ (mi < 1 ∨ ma < mi) := by omega
  have hflds : ¬ (g = "" ∨ v = "" ∨ fn = "") := by simp [hg, hv, hf]
  have hlen : ¬ ((B.length : Int) ≠ (B.length : Int)) := by simp
  simp only [upload_game_file, hp, read_exact_full, hzip, if_neg hcu, if_neg hflds,
    if_neg h1, if_neg hauth, if_neg hlen]

lemma upload_eval_unzip_some (unzip : List Nat → Option (List (String × List Nat)))
    (pcd : List Nat → String) (st : CentralDB) (cu g v fn : String)
    (minF maxF : IntField) (mi ma : Int) (B : List Nat)
    (tree : List (String × List Nat))
    (hcu : cu ≠ "") (hg : g ≠ "") (hv : v ≠ "") (hf : fn ≠ "")
    (hp : playersInts minF maxF = some (mi, ma)) (hmi : 1 ≤ mi) (hma : mi ≤ ma)
    (hauth : ¬ authorConflict st.games g cu) (hzip : unzip B = some tree) :
    upload_game_file unzip pcd st (some cu) g v fn (some (B.length : Int)) minF maxF B =
      ({ st with
         files := setAssoc st.files (storagePathOf g fn) B
         extracted := setAssoc (setAssoc st.extracted (extractDirOf g) [])
           (extractDirOf g) tree
         games := (upsert_game st.games st.users g v fn (some cu)
           (uploadDescription pcd tree) (some (extractDirOf g)) (some mi) (some ma)).1
         users := (upsert_game st.games st.users g v fn (some cu)
           (uploadDescription pcd tree) (some (extractDirOf g)) (some mi) (some ma)).2.1 },
        .ok g v (storagePathOf g fn) (extractDirOf g)) := by
  have h1 : ¬ (mi < 1 ∨ ma < mi) := by omega
  have hflds : ¬ (g = "" ∨ v = "" ∨ fn = "") := by simp [hg, hv, hf]
  have hlen : ¬ ((B.length : Int) ≠ (B.length : Int)) := by simp
  simp only [upload_game_file, hp, read_exact_full, hzip, if_neg hcu, if_neg hflds,
    if_neg h1, if_neg hauth, if_neg hlen]

/-- Game record for the C2 scenario: `g`, authored by alice, already uploaded
    and extracted. -/
def uploadGame0 : Game :=
  { game_name := "g"
    version := "1"
    filename := "g.zip"
    storage_path := storagePathOf "g" "g.zip"
    description := ""
    author := some "alice"
    rating := none
    extracted_path := some (extractDirOf "g")
    min_players := 1
    max_players := 4 }

/-- Central state for the C2 scenario: the archive bytes `[1, 2, 3]` are on
    disk and the extraction directory holds a one-file tree. -/
def uploadSt0 : CentralDB :=
  { users := [{ username := "alice", password := "pw", games := [], games_own := ["g"] }]
    games := [uploadGame0]
    comments := []
    files := [(storagePathOf "g" "g.zip", [1, 2, 3])]
    extracted := [(extractDirOf "g", [("run_room_server.py", [7, 7])])] }

/-- Claim C2 counterexample: on an upload whose payload fails to extract the
    reply is `UNZIP_FAILED` and the record is unchanged, but the previously
    extracted package tree IS removed (the handler runs `rmtree` and recreates
    the directory empty before attempting extraction), so the claim's
    "previously extracted tree is not overwritten or removed" conjunct is
    false at this input. -/
theorem upload_unzip_failure_clears_prior_extraction :
    ¬ ((upload_game_file (fun _ => none) (fun _ => "") uploadSt0 (some "alice")
          "g" "2" "g.zip" (some 2) .absent .absent [9, 9]).2 = .unzipFailed ∧
       (upload_game_file (fun _ => none) (fun _ => "") uploadSt0 (some "alice")
          "g" "2" "g.zip" (some 2) .absent .absent [9, 9]).1.games = uploadSt0.games ∧
       getAssoc (upload_game_file (fun _ => none) (fun _ => "") uploadSt0 (some "alice")
          "g" "2" "g.zip" (some 2) .absent .absent [9, 9]).1.extracted (extractDirOf "g") =
         getAssoc uploadSt0.extracted (extractDirOf "g")) := by
  decide

/-- Claim C2 (amended): when the uploaded payload fails to extract the server
    replies `UNZIP_FAILED` and the metadata record (and comments and users)
    are left unchanged; the stored archive, however, has been overwritten
    with the new payload and the previously extracted tree has been replaced
    by an empty directory. -/
theorem upload_unzip_failure_behavior
    (unzip : List Nat → Option (List (String × List Nat)))
    (pcd : List Nat → String) (st : CentralDB) (cu g v fn : String)
    (minF maxF : IntField) (mi ma : Int) (B : List Nat)
    (hcu : cu ≠ "") (hg : g ≠ "") (hv : v ≠ "") (hf : fn ≠ "")
    (hp : playersInts minF maxF = some (mi, ma)) (hmi : 1 ≤ mi) (hma : mi ≤ ma)
    (hauth : ¬ authorConflict st.games g cu) (hzip : unzip B = none) :
    (upload_game_file unzip pcd st (some cu) g v fn
        (some (B.length : Int)) minF maxF B).2 = .unzipFailed ∧
    (upload_game_file unzip pcd st (some cu) g v fn
        (some (B.length : Int)) minF maxF B).1.games = st.games ∧
    (upload_game_file unzip pcd st (some cu) g v fn
        (some (B.length : Int)) minF maxF B).1.comments = st.comments ∧
    (upload_game_file unzip pcd st (some cu) g v fn
        (some (B.length : Int)) minF maxF B).1.users = st.users ∧
    getAssoc (upload_game_file unzip pcd st (some cu) g v fn
        (some (B.length : Int)) minF maxF B).1.files (storagePathOf g fn) = some B ∧
    getAssoc (upload_game_file unzip pcd st (some cu) g v fn
        (some (B.length : Int)) minF maxF B).1.extracted (extractDirOf g) = some [] := by
  have h := upload_eval_unzip_none unzip pcd st cu g v fn minF maxF mi ma B
    hcu hg hv hf hp hmi hma hauth hzip
  rw [h]
  exact ⟨rfl, rfl, rfl, rfl, getAssoc_setAssoc_self _ _ _, getAssoc_setAssoc_self _ _ _⟩

/-- Claim C2 witness: the amended behavior evaluated at the concrete C2
    scenario (payload `[9, 9]`, declared size 2, extraction failing). -/
theorem upload_unzip_failure_behavior_witness :
    (("alice" : String) ≠ "" ∧ ("g" : String) ≠ "" ∧ ("2" : String) ≠ "" ∧
      ("g.zip" : String) ≠ "" ∧
      playersInts .absent .absent = some (1, 4) ∧
      ¬ authorConflict uploadSt0.games "g" "alice" ∧
      (fun _ : List Nat => (none : Option (List (String × List Nat)))) [9, 9] = none) ∧
    ((upload_game_file (fun _ => none) (fun _ => "") uploadSt0 (some "alice")
        "g" "2" "g.zip" (some (([9, 9] : List Nat).length : Int)) .absent .absent
        [9, 9]).2 = .unzipFailed ∧
     (upload_game_file (fun _ => none) (fun _ => "") uploadSt0 (some "alice")
        "g" "2" "g.zip" (some (([9, 9] : List Nat).length : Int)) .absent .absent
        [9, 9]).1.games = uploadSt0.games ∧
     (upload_game_file (fun _ => none) (fun _ => "") uploadSt0 (some "alice")
        "g" "2" "g.zip" (some (([9, 9] : List Nat).length : Int)) .absent .absent
        [9, 9]).1.comments = uploadSt0.comments ∧
     (upload_game_file (fun _ => none) (fun _ => "") uploadSt0 (some "alice")
        "g" "2" "g.zip" (some (([9, 9] : List Nat).length : Int)) .absent .absent
        [9, 9]).1.users = uploadSt0.users ∧
     getAssoc (upload_game_file (fun _ => none) (fun _ => "") uploadSt0 (some "alice")
        "g" "2" "g.zip" (some (([9, 9] : List Nat).length : Int)) .absent .absent
        [9, 9]).1.files (storagePathOf "g" "g.zip") = some [9, 9] ∧
     getAssoc (upload_game_file (fun _ => none) (fun _ => "") uploadSt0 (some "alice")
        "g" "2" "g.zip" (some (([9, 9] : List Nat).length : Int)) .absent .absent
        [9, 9]).1.extracted (extractDirOf "g") = some []) :=
  ⟨⟨by decide, by decide, by decide, by decide, by decide, by decide, rfl⟩,
    upload_unzip_failure_behavior (fun _ => none) (fun _ => "") uploadSt0 "alice"
      "g" "2" "g.zip" .absent .absent 1 4 [9, 9]
      (by decide) (by decide) (by decide) (by decide) (by decide)
      (by decide) (by decide) (by decide) rfl⟩

/-- Claim C5: upload/download round-trip.  A successful
    `upload_game_file` of bytes `B` with `filesize = len(B)` makes a
    subsequent `download_game_file` of the same game (no intervening upload
    or deletion) reply with a header whose `filesize` is `len(B)` and stream
    exactly `B`. -/
theorem upload_download_roundtrip
    (unzip : List Nat → Option (List (String × List Nat)))
    (pcd : List Nat → String) (st : CentralDB) (cu w g v fn : String)
    (minF maxF : IntField) (mi ma : Int) (B : List Nat)
    (tree : List (String × List Nat))
    (hcu : cu ≠ "") (hw : w ≠ "") (hg : g ≠ "") (hv : v ≠ "") (hf : fn ≠ "")
    (hp : playersInts minF maxF = some (mi, ma)) (hmi : 1 ≤ mi) (hma : mi ≤ ma)
    (hauth : ¬ authorConflict st.games g cu) (hzip : unzip B = some tree) :
    (upload_game_file unzip pcd st (some cu) g v fn
        (some (B.length : Int)) minF maxF B).2 =
      .ok g v (storagePathOf g fn) (extractDirOf g) ∧
    (download_game_file (upload_game_file unzip pcd st (some cu) g v fn
        (some (B.length : Int)) minF maxF B).1 (some w) g).2 =
      .ok g (basename (storagePathOf g fn)) B.length v B := by
  have h := upload_eval_unzip_some unzip pcd st cu g v fn minF maxF mi ma B tree
    hcu hg hv hf hp hmi hma hauth hzip
  rw [h]
  refine ⟨rfl, ?_⟩
  obtain ⟨hver, hsp⟩ := upsert_version_storage st.games st.users g v fn (some cu)
    (uploadDescription pcd tree) (some (extractDirOf g)) (some mi) (some ma)
  simp only [download_game_file, if_neg hw, if_neg hg, get_game_upsert_self, hsp,
    hver, if_neg (storagePathOf_ne_empty g fn), getAssoc_setAssoc_self]

/-- Empty central store, used by the C5 witness. -/
def emptyDB : CentralDB :=
  { users := [], games := [], comments := [], files := [], extracted := [] }

/-- Claim C5 witness: the round-trip evaluated for concrete bytes `[1, 2]`
    uploaded into an empty store. -/
theorem upload_download_roundtrip_witness :
    (("alice" : String) ≠ "" ∧ ("bob" : String) ≠ "" ∧ ("g" : String) ≠ "" ∧
      ("1" : String) ≠ "" ∧ ("g.zip" : String) ≠ "" ∧
      playersInts .absent .absent = some (1, 4) ∧
      ¬ authorConflict emptyDB.games "g" "alice" ∧
      (fun _ : List Nat => some ([] : List (String × List Nat))) [1, 2] = some []) ∧
    ((upload_game_file (fun _ => some []) (fun _ => "") emptyDB (some "alice")
        "g" "1" "g.zip" (some (([1, 2] : List Nat).length : Int)) .absent .absent
        [1, 2]).2 = .ok "g" "1" (storagePathOf "g" "g.zip") (extractDirOf "g") ∧
     (download_game_file (upload_game_file (fun _ => some []) (fun _ => "") emptyDB
        (some "alice") "g" "1" "g.zip" (some (([1, 2] : List Nat).length : Int))
        .absent .absent [1, 2]).1 (some "bob") "g").2 =
       .ok "g" (basename (storagePathOf "g" "g.zip")) ([1, 2] : List Nat).length
         "1" [1, 2]) :=
  ⟨⟨by decide, by decide, by decide, by decide, by decide, by decide, by decide, rfl⟩,
    upload_download_roundtrip (fun _ => some []) (fun _ => "") emptyDB "alice" "bob"
      "g" "1" "g.zip" .absent .absent 1 4 [1, 2] []
      (by decide) (by decide) (by decide) (by decide) (by decide) (by decide)
      (by decide) (by decide) (by decide) rfl⟩

/-! ## Port allocator (`_find_free_port` in `central_lobby_server.py` and
    `game_lobby_server.py`)

    The source loops `port += 1` without bound; the loop is modelled with an
    explicit fuel, `none` meaning the loop has not returned within `fuel`
    iterations.  The bind probe `_port_available` is the `avail` oracle. -/

/-- Fuelled embedding of `_find_free_port`: the smallest `port ≥ start` that
    is not in `taken` and passes the bind check. -/
def find_free_port (avail : Nat → Bool) (taken : List Nat) (port : Nat) :
    Nat → Option Nat
  | 0 => none
  | fuel + 1 =>
      if port ∉ taken ∧ avail port = true then some port
      else find_free_port avail taken (port + 1) fuel

/-- Claim C8: whenever some port `w ≥ b` is outside `taken` and passes the
    bind check (and the fuel covers the search up to `w`), the allocator
    returns the smallest such port; in particular the result is not in
    `taken`. -/
theorem find_free_port_returns_smallest (avail : Nat → Bool) (taken : List Nat)
    (b fuel w : Nat) (hw : w ∉ taken ∧ avail w = true) (hwb : b ≤ w)
    (hfuel : w < b + fuel) :
    ∃ p, find_free_port avail taken b fuel = some p ∧ b ≤ p ∧ p ∉ taken ∧
      avail p = true ∧ ∀ q, b ≤ q → q < p → ¬ (q ∉ taken ∧ avail q = true) := by
  induction fuel generalizing b with
  | zero => omega
  | succ n ih =>
    by_cases hb : b ∉ taken ∧ avail b = true
    · refine ⟨b, ?_, Nat.le_refl b, hb.1, hb.2, fun q h1 h2 => by omega⟩
      simp only [find_free_port, if_pos hb]
    · have hbw : b ≠ w := fun h => hb (h ▸ hw)
      obtain ⟨p, hp, hbp, hpt, hpa, hmin⟩ := ih (b + 1) (by omega) (by omega)
      refine ⟨p, ?_, by omega, hpt, hpa, ?_⟩
      · simp only [find_free_port, if_neg hb]
        exact hp
      · intro q hq1 hq2
        rcases Nat.eq_or_lt_of_le hq1 with hq | hq
        · exact hq ▸ hb
        · exact hmin q hq hq2

/-- Claim C8 witness: with only odd ports bindable and 12001 already taken,
    the allocator starting at 12000 finds 12003. -/
theorem find_free_port_returns_smallest_witness :
    ((12003 : Nat) ∉ [12001] ∧ (fun p : Nat => decide (p % 2 = 1)) 12003 = true ∧
      (12000 : Nat) ≤ 12003 ∧ (12003 : Nat) < 12000 + 5) ∧
    (∃ p, find_free_port (fun p : Nat => decide (p % 2 = 1)) [12001] 12000 5 = some p ∧
      12000 ≤ p ∧ p ∉ [12001] ∧ (fun p : Nat => decide (p % 2 = 1)) p = true ∧
      ∀ q, 12000 ≤ q → q < p →
        ¬ (q ∉ [12001] ∧ (fun p : Nat => decide (p % 2 = 1)) q = true)) :=
  ⟨⟨by decide, by decide, by decide, by decide⟩,
    find_free_port_returns_smallest (fun p : Nat => decide (p % 2 = 1)) [12001]
      12000 5 12003 ⟨by decide, by decide⟩ (by decide) (by decide)⟩

/-! ## Lobby process table (`start_lobby_if_needed` in
    `central_lobby_server.py`)

    `lobbies` maps a game name to its lobby child; `alive` models
    `process.poll() is None` and `pid` the identity of the `Popen` handle
    (`next_pid` is the supply of fresh handles, so an unchanged `next_pid`
    means no child was spawned).  `_ensure_extracted_package` and
    `subprocess.Popen` are the `canExtract` / `spawnOk` oracles. -/

/-- A running lobby child (`LobbyProcess` dataclass plus liveness). -/
structure LobbyProc where
  game_name : String
  host : String
  port : Nat
  alive : Bool
  pid : Nat
  deriving DecidableEq, Repr

/-- The central server's `lobbies` table and its supply of process handles. -/
structure CentralLobbies where
  lobbies : List (String × LobbyProc)
  next_pid : Nat
  deriving DecidableEq, Repr

/-- Replies of `start_lobby_if_needed`. -/
inductive LaunchReply
  | ok (host : String) (port : Nat)
  | notExtracted
  | spawnFailed
  | portSearchDiverged
  deriving DecidableEq, Repr

/-- The spawn path of `start_lobby_if_needed` (everything after the
    already-running check): ensure the package is extracted, allocate a free
    port, spawn the lobby child and record the entry. -/
def startLobbySpawn (avail : Nat → Bool) (fuel lobby_base : Nat) (host : String)
    (canExtract spawnOk : Bool) (st : CentralLobbies) (game_name : String) :
    CentralLobbies × LaunchReply :=
  if ¬ canExtract then (st, .notExtracted)
  else match find_free_port avail (st.lobbies.map (fun e => e.2.port)) lobby_base fuel with
  | none => (st, .portSearchDiverged)
  | some port =>
    if ¬ spawnOk then (st, .spawnFailed)
    else
      ({ lobbies := setAssoc st.lobbies game_name
           { game_name := game_name, host := host, port := port, alive := true,
             pid := st.next_pid }
         next_pid := st.next_pid + 1 },
        .ok host port)

/-- The `start_lobby_if_needed` routine: if an entry exists and its child is
    still alive, return the existing `(host, port)`; otherwise go through the
    spawn path. -/
def start_lobby_if_needed (avail : Nat → Bool) (fuel lobby_base : Nat)
    (host : String) (canExtract spawnOk : Bool) (st : CentralLobbies)
    (game_name : String) : CentralLobbies × LaunchReply :=
  match getAssoc st.lobbies game_name with
  | some l =>
      if l.alive then (st, .ok l.host l.port)
      else startLobbySpawn avail fuel lobby_base host canExtract spawnOk st game_name
  | none => startLobbySpawn avail fuel lobby_base host canExtract spawnOk st game_name

/-- Claim C7: if a lobby entry exists for the game and its child is alive,
    `start_lobby_if_needed` returns ok with the existing `(host, port)` and
    the whole state — the `lobbies` table and the process-handle supply — is
    unchanged, so no child is spawned. -/
theorem launch_idempotent_while_running (avail : Nat → Bool) (fuel lobby_base : Nat)
    (host : String) (canExtract spawnOk : Bool) (st : CentralLobbies)
    (game_name : String) (l : LobbyProc)
    (hl : getAssoc st.lobbies game_name = some l) (halive : l.alive = true) :
    start_lobby_if_needed avail fuel lobby_base host canExtract spawnOk st game_name =
      (st, .ok l.host l.port) := by
  simp only [start_lobby_if_needed, hl, halive, if_true]

/-- Live lobby child for `g`, used by the C7 witness. -/
def lobbyG : LobbyProc :=
  { game_name := "g"
    host := "h"
    port := 11000
    alive := true
    pid := 0 }

/-- Concrete lobbies table with a live lobby for `g`, used by the C7 witness. -/
def lobbies0 : CentralLobbies :=
  { lobbies := [("g", lobbyG)]
    next_pid := 1 }

/-- Claim C7 witness: launching `g` while its lobby runs returns the existing
    endpoint and changes nothing. -/
theorem launch_idempotent_while_running_witness :
    (getAssoc lobbies0.lobbies "g" = some lobbyG ∧ lobbyG.alive = true) ∧
    start_lobby_if_needed (fun _ => true) 5 11000 "h" true true lobbies0 "g" =
      (lobbies0, .ok lobbyG.host lobbyG.port) :=
  ⟨⟨by decide, by decide⟩,
    launch_idempotent_while_running (fun _ => true) 5 11000 "h" true true lobbies0 "g"
      lobbyG (by decide) (by decide)⟩

/-! ## More generic list lemmas (for the lobby room table) -/

lemma countP_updateFirst_le {α : Type} (q p : α → Bool) (f : α → α) (l : List α)
    (h : ∀ x ∈ l, q x = true → p (f x) = true → p x = true) :
    (updateFirst q f l).countP p ≤ l.countP p := by
  induction l with
  | nil => simp [updateFirst]
  | cons x xs ih =>
    by_cases hq : q x
    · simp only [updateFirst, if_pos hq, List.countP_cons]
      by_cases hpf : p (f x) = true
      · rw [if_pos hpf, if_pos (h x (List.mem_cons_self x xs) hq hpf)]
      · rw [if_neg hpf]
        by_cases hpx : p x = true
        · rw [if_pos hpx]; omega
        · rw [if_neg hpx]
    · simp only [updateFirst, if_neg hq, List.countP_cons]
      have := ih (fun y hy => h y (List.mem_cons_of_mem x hy))
      omega

lemma countP_updateFirst_le_one {α : Type} (q p : α → Bool) (f : α → α) (l : List α)
    (hother : ∀ x ∈ l, q x = false → p x = false)
    (hq : l.countP q ≤ 1) :
    (updateFirst q f l).countP p ≤ 1 := by
  induction l with
  | nil => simp [updateFirst]
  | cons x xs ih =>
    by_cases hqx : q x = true
    · have hxs : xs.countP q = 0 := by
        rw [List.countP_cons, if_pos hqx] at hq
        omega
      have hpxs : xs.countP p = 0 := List.countP_eq_zero.mpr
        (fun y hy => by
          have hqy : q y = false := by
            have := List.countP_eq_zero.mp hxs y hy
            simpa using this
          simp [hother y (List.mem_cons_of_mem x hy) hqy])
      simp only [updateFirst, if_pos hqx, List.countP_cons, hpxs]
      by_cases hpf : p (f x) = true
      · rw [if_pos hpf]
      · rw [if_neg hpf]; omega
    · have hpx : p x = false := hother x (List.mem_cons_self x xs) (by simpa using hqx)
      have hq' : xs.countP q ≤ 1 := by
        rw [List.countP_cons, if_neg hqx] at hq
        omega
      have := ih (fun y hy => hother y (List.mem_cons_of_mem x hy)) hq'
      simp only [updateFirst, if_neg hqx, List.countP_cons, hpx]
      rw [if_neg (by simp)]
      omega

lemma countP_key_le_one {α : Type} (g : α → Nat) (c : Nat) (l : List α)
    (h : (l.map g).Nodup) :
    l.countP (fun x => decide (g x = c)) ≤ 1 := by
  induction l with
  | nil => simp
  | cons x xs ih =>
    rw [List.map_cons, List.nodup_cons] at h
    rw [List.countP_cons]
    by_cases hx : g x = c
    · have hzero : xs.countP (fun x => decide (g x = c)) = 0 := by
        apply List.countP_eq_zero.mpr
        intro y hy
        simp only [decide_eq_true_eq]
        intro hgy
        have : g x ∈ List.map g xs := by
          rw [hx, ← hgy]
          exact List.mem_map_of_mem g hy
        exact h.1 this
      rw [hzero, if_pos (by simp [hx])]
    · rw [if_neg (by simp [hx])]
      have := ih h.2
      omega

lemma eq_of_find?_of_countP_le_one {α : Type} (q : α → Bool) (l : List α) (a : α)
    (hfind : l.find? q = some a) (hc : l.countP q ≤ 1) :
    ∀ x ∈ l, q x = true → x = a := by
  induction l with
  | nil => intro x hx; simp at hx
  | cons y ys ih =>
    by_cases hq : q y
    · rw [List.find?_cons_of_pos _ hq] at hfind
      have hya : y = a := by injection hfind
      have hzero : ys.countP q = 0 := by
        rw [List.countP_cons, if_pos hq] at hc
        omega
      intro x hx hqx
      rcases List.mem_cons.mp hx with hxy | hxin
      · exact hxy.trans hya
      · exact absurd hqx (by simpa using List.countP_eq_zero.mp hzero x hxin)
    · rw [List.find?_cons_of_neg _ hq] at hfind
      have hc' : ys.countP q ≤ 1 := by
        rw [List.countP_cons, if_neg (by simpa using hq)] at hc
        omega
      intro x hx hqx
      rcases List.mem_cons.mp hx with hxy | hxin
      · exact absurd (hxy ▸ hqx) (by simpa using hq)
      · exact ih hfind hc' x hxin hqx

lemma map_updateFirst_eq {α β : Type} (q : α → Bool) (f : α → α) (g : α → β)
    (l : List α) (h : ∀ x ∈ l, q x = true → g (f x) = g x) :
    (updateFirst q f l).map g = l.map g := by
  induction l with
  | nil => rfl
  | cons x xs ih =>
    by_cases hq : q x
    · simp [updateFirst, hq, h x (List.mem_cons_self x xs) hq]
    · simp [updateFirst, hq, ih (fun y hy => h y (List.mem_cons_of_mem x hy))]

lemma countP_map_le {α : Type} (f : α → α) (p : α → Bool) (l : List α)
    (h : ∀ x ∈ l, p (f x) = true → p x = true) :
    (l.map f).countP p ≤ l.countP p := by
  induction l with
  | nil => simp
  | cons x xs ih =>
    rw [List.map_cons, List.countP_cons, List.countP_cons]
    have := ih (fun y hy => h y (List.mem_cons_of_mem x hy))
    by_cases hpf : p (f x) = true
    · rw [if_pos hpf, if_pos (h x (List.mem_cons_self x xs) hpf)]
      omega
    · rw [if_neg hpf]
      by_cases hpx : p x = true
      · rw [if_pos hpx]; omega
      · rw [if_neg hpx]; omega

lemma map_map_eq {α β : Type} (f : α → α) (g : α → β) (l : List α)
    (h : ∀ x, g (f x) = g x) :
    (l.map f).map g = l.map g := by
  induction l with
  | nil => rfl
  | cons x xs ih => simp [h x, ih]

/-! ## Game lobby room table (`game_lobby_server.py`)

    `rooms` is a dict keyed by `room_id`; the source's ids are the strings
    `R1, R2, …` produced from the monotone `room_counter`, modelled here by
    their sequence numbers (the format `R<k>` is injective in `k`).  Port
    allocation, entry-script resolution and `subprocess.Popen` are oracles as
    before. -/

/-- Python `a or d` for an optional string with a string default. -/
def pyStrOr (a : Option String) (d : String) : String :=
  match a with
  | some s => if s = "" then d else s
  | none => d

/-- Room status (`waiting` until the child exits). -/
inductive RoomStatus
  | waiting
  | closed
  deriving DecidableEq, Repr

/-- A room record (the `Room` dataclass, minus the raw process handle). -/
structure Room where
  room_id : Nat
  game_name : String
  version : String
  host_username : String
  max_players : Int
  room_server_host : String
  room_server_port : Nat
  players : List String
  status : RoomStatus
  deriving DecidableEq, Repr

/-- One lobby process's `rooms` table and `room_counter`. -/
structure LobbyState where
  rooms : List Room
  room_counter : Nat
  deriving DecidableEq, Repr

/-- Replies of the lobby actions. -/
inductive LobbyReply
  | okCreate (room_id port : Nat)
  | okJoin (room_id : Nat)
  | okLeave
  | invalidRequest
  | alreadyInRoom
  | roomNotFound
  | roomNotJoinable
  | roomFull
  | notInRoom
  | roomServerMissing
  | roomServerFailed
  | portSearchDiverged
  deriving DecidableEq, Repr

/-- Dict write `rooms[room_id] = room`. -/
def rooms_insert (rooms : List Room) (r : Room) : List Room :=
  if rooms.any (fun x => decide (x.room_id = r.room_id)) then
    updateFirst (fun x : Room => x.room_id = r.room_id) (fun _ => r) rooms
  else rooms ++ [r]

/-- The `create_room` action (`handle_create_room`): the id is drawn from the
    bumped counter before any check; a user already in a waiting room is
    rejected; then a room port is allocated, the entry script resolved and
    the child spawned; the creator is the sole player of the new room. -/
def create_room (avail : Nat → Bool) (fuel : Nat) (lobby_host : String)
    (room_port_start : Nat) (game_name : String) (entryExists spawnOk : Bool)
    (st : LobbyState) (username : Option String) (max_players : Option Int)
    (version : Option String) : LobbyState × LobbyReply :=
  let user := pyStrOr username "host"
  let mp := pyOrInt max_players 2
  let ver := pyStrOr version "latest"
  let room_id := st.room_counter + 1
  if ∃ r ∈ st.rooms, r.status = RoomStatus.waiting ∧ user ∈ r.players then
    ({ st with room_counter := room_id }, .alreadyInRoom)
  else
    match find_free_port avail (st.rooms.map (fun r => r.room_server_port))
        room_port_start fuel with
    | none => ({ st with room_counter := room_id }, .portSearchDiverged)
    | some port =>
      if ¬ entryExists then ({ st with room_counter := room_id }, .roomServerMissing)
      else if ¬ spawnOk then ({ st with room_counter := room_id }, .roomServerFailed)
      else
        let room : Room :=
          { room_id := room_id
            game_name := game_name
            version := ver
            host_username := user
            max_players := mp
            room_server_host := lobby_host
            room_server_port := port
            players := [user]
            status := .waiting }
        ({ st with room_counter := room_id, rooms := rooms_insert st.rooms room },
          .okCreate room_id port)

/-- The `join_room` action (`handle_join_room`): rejects a user sitting in
    another waiting room, then `ROOM_NOT_FOUND` / `ROOM_NOT_JOINABLE` /
    `ROOM_FULL`, else appends the user to `players` (idempotently). -/
def join_room (st : LobbyState) (room_id : Option Nat) (username : Option String) :
    LobbyState × LobbyReply :=
  match room_id, username with
  | some rid, some user =>
    if user = "" then (st, .invalidRequest)
    else if ∃ r ∈ st.rooms,
        r.status = RoomStatus.waiting ∧ r.room_id ≠ rid ∧ user ∈ r.players then
      (st, .alreadyInRoom)
    else match st.rooms.find? (fun r => r.room_id = rid) with
    | none => (st, .roomNotFound)
    | some room =>
      if room.status ≠ RoomStatus.waiting then (st, .roomNotJoinable)
      else if (room.players.length : Int) ≥ room.max_players ∧ user ∉ room.players then
        (st, .roomFull)
      else
        let room' := if user ∈ room.players then room
          else { room with players := room.players ++ [user] }
        let rooms' :=
          updateFirst (fun r : Room => r.room_id = rid) (fun _ => room') st.rooms
        ({ st with rooms := rooms' }, .okJoin rid)
  | _, _ => (st, .invalidRequest)

/-- The `leave_room` action (`handle_leave_room`): with a `room_id`, removes
    the user from that room if present; without one, removes the user from
    every room of the lobby. -/
def leave_room (st : LobbyState) (room_id : Option Nat) (username : Option String) :
    LobbyState × LobbyReply :=
  match username with
  | none => (st, .invalidRequest)
  | some user =>
    if user = "" then (st, .invalidRequest)
    else match room_id with
    | some rid =>
      match st.rooms.find? (fun r => r.room_id = rid) with
      | some room =>
        if user ∈ room.players then
          let rooms' :=
            updateFirst (fun r : Room => r.room_id = rid)
              (fun r => { r with players := r.players.filter (fun p => p ≠ user) })
              st.rooms
          ({ st with rooms := rooms' }, .okLeave)
        else (st, .notInRoom)
      | none => (st, .notInRoom)
    | none =>
      if ∃ r ∈ st.rooms, user ∈ r.players then
        let rooms' := st.rooms.map (fun r =>
          if user ∈ r.players then
            { r with players := r.players.filter (fun p => p ≠ user) }
          else r)
        ({ st with rooms := rooms' }, .okLeave)
      else (st, .notInRoom)

/-- Lobby states reachable from the empty lobby by `create_room`,
    `join_room` and `leave_room`. -/
inductive LobbyReachable : LobbyState → Prop
  | init : LobbyReachable { rooms := [], room_counter := 0 }
  | create (st : LobbyState) (avail : Nat → Bool) (fuel : Nat) (lobby_host : String)
      (room_port_start : Nat) (game_name : String) (entryExists spawnOk : Bool)
      (username : Option String) (max_players : Option Int) (version : Option String) :
      LobbyReachable st →
      LobbyReachable (create_room avail fuel lobby_host room_port_start game_name
        entryExists spawnOk st username max_players version).1
  | join (st : LobbyState) (room_id : Option Nat) (username : Option String) :
      LobbyReachable st → LobbyReachable (join_room st room_id username).1
  | leave (st : LobbyState) (room_id : Option Nat) (username : Option String) :
      LobbyReachable st → LobbyReachable (leave_room st room_id username).1

/-- How many waiting rooms of the lobby list user `u`. -/
def waitingCount (st : LobbyState) (u : String) : Nat :=
  st.rooms.countP (fun r => decide (r.status = RoomStatus.waiting ∧ u ∈ r.players))

/-- Inductive invariant of the lobby: ids are bounded by the counter and
    pairwise distinct, and every user sits in at most one waiting room. -/
def LobbyInv (st : LobbyState) : Prop :=
  (∀ i ∈ st.rooms.map (fun r => r.room_id), i ≤ st.room_counter) ∧
  (st.rooms.map (fun r => r.room_id)).Nodup ∧
  (∀ u, waitingCount st u ≤ 1)

lemma inv_counter_bump (st : LobbyState) (n : Nat) (h : LobbyInv st)
    (hn : st.room_counter ≤ n) : LobbyInv { st with room_counter := n } := by
  obtain ⟨hb, hnd, hu⟩ := h
  exact ⟨fun i hi => le_trans (hb i hi) hn, hnd, hu⟩

lemma inv_create_success (st : LobbyState) (user : String) (room : Room)
    (hid : room.room_id = st.room_counter + 1)
    (hpl : room.players = [user])
    (hinv : LobbyInv st)
    (hguard : ¬ ∃ r ∈ st.rooms, r.status = RoomStatus.waiting ∧ user ∈ r.players) :
    LobbyInv { rooms := rooms_insert st.rooms room,
               room_counter := st.room_counter + 1 } := by
  obtain ⟨hb, hnd, hu⟩ := hinv
  have hfresh : st.rooms.any (fun x => decide (x.room_id = room.room_id)) = false := by
    apply List.any_eq_false.mpr
    intro x hx
    simp only [decide_eq_true_eq]
    have := hb x.room_id (List.mem_map_of_mem _ hx)
    omega
  have hins : rooms_insert st.rooms room = st.rooms ++ [room] := by
    unfold rooms_insert
    rw [hfresh]
    simp
  rw [hins]
  refine ⟨?_, ?_, ?_⟩
  · intro i hi
    rw [List.map_append] at hi
    rcases List.mem_append.mp hi with hold | hnew
    · exact le_trans (hb i hold) (Nat.le_succ _)
    · simp only [List.map_cons, List.map_nil, List.mem_cons, List.not_mem_nil,
        or_false] at hnew
      show i ≤ st.room_counter + 1
      omega
  · rw [List.map_append, List.nodup_append]
    refine ⟨hnd, by simp, ?_⟩
    intro a ha hb'
    simp only [List.map_cons, List.map_nil, List.mem_cons, List.not_mem_nil,
      or_false] at hb'
    have := hb a ha
    omega
  · intro u
    unfold waitingCount
    rw [List.countP_append]
    by_cases hru : decide (room.status = RoomStatus.waiting ∧ u ∈ room.players) = true
    · simp only [decide_eq_true_eq] at hru
      obtain ⟨hw, hm⟩ := hru
      rw [hpl] at hm
      have huser : u = user := by simpa using hm
      subst huser
      have hzero : st.rooms.countP
          (fun r => decide (r.status = RoomStatus.waiting ∧ u ∈ r.players)) = 0 := by
        apply List.countP_eq_zero.mpr
        intro r hr
        simp only [decide_eq_true_eq, not_and]
        intro h1 h2
        exact hguard ⟨r, hr, h1, h2⟩
      rw [hzero]
      simp only [List.countP_cons, List.countP_nil, Nat.zero_add]
      split <;> omega
    · have hone : List.countP
          (fun r => decide (r.status = RoomStatus.waiting ∧ u ∈ r.players)) [room] = 0 := by
        simp only [List.countP_cons, List.countP_nil]
        rw [if_neg hru]
      rw [hone, Nat.add_zero]
      exact hu u

lemma inv_join_success (st : LobbyState) (rid : Nat) (user : String) (room room' : Room)
    (rooms' : List Room)
    (hfind : st.rooms.find? (fun r => decide (r.room_id = rid)) = some room)
    (hguard : ¬ ∃ r ∈ st.rooms,
      r.status = RoomStatus.waiting ∧ r.room_id ≠ rid ∧ user ∈ r.players)
    (hid' : room'.room_id = room.room_id)
    (hst' : room'.status = room.status)
    (hmem : ∀ v, v ≠ user → (v ∈ room'.players ↔ v ∈ room.players))
    (hrooms' : rooms' = updateFirst (fun r : Room => r.room_id = rid)
      (fun _ => room') st.rooms)
    (hinv : LobbyInv st) :
    LobbyInv { st with rooms := rooms' } := by
  subst hrooms'
  obtain ⟨hb, hnd, hu⟩ := hinv
  have hroomid : room.room_id = rid := by
    have := List.find?_some hfind
    simpa using this
  have hq1 : st.rooms.countP (fun r => decide (r.room_id = rid)) ≤ 1 :=
    countP_key_le_one (fun r => r.room_id) rid st.rooms hnd
  have huniq := eq_of_find?_of_countP_le_one _ _ _ hfind hq1
  have hmap : (updateFirst (fun r : Room => decide (r.room_id = rid))
      (fun _ => room') st.rooms).map (fun r => r.room_id) =
      st.rooms.map (fun r => r.room_id) := by
    apply map_updateFirst_eq
    intro x hx hqx
    simp only [decide_eq_true_eq] at hqx
    rw [hid', hroomid, hqx]
  refine ⟨fun i hi => hb i (hmap ▸ hi), hmap ▸ hnd, ?_⟩
  intro u
  unfold waitingCount
  by_cases hueq : u = user
  · subst hueq
    apply countP_updateFirst_le_one
    · intro x hx hqx
      cases hpx : decide (x.status = RoomStatus.waiting ∧ u ∈ x.players) with
      | false => rfl
      | true =>
        simp only [decide_eq_true_eq] at hpx
        have hxid : x.room_id ≠ rid := by
          intro hcon
          rw [hcon] at hqx
          simp at hqx
        exact absurd ⟨x, hx, hpx.1, hxid, hpx.2⟩ hguard
    · exact hq1
  · apply le_trans ?_ (hu u)
    apply countP_updateFirst_le
    intro x hx hqx hpf
    have hx_eq : x = room := huniq x hx hqx
    subst hx_eq
    simp only [decide_eq_true_eq] at hpf ⊢
    obtain ⟨hw, hm⟩ := hpf
    rw [hst'] at hw
    exact ⟨hw, (hmem u hueq).mp hm⟩

lemma inv_leave_some (st : LobbyState) (rid : Nat) (user : String)
    (rooms' : List Room)
    (hrooms' : rooms' = updateFirst (fun r : Room => r.room_id = rid)
      (fun r => { r with players := r.players.filter (fun p => p ≠ user) })
      st.rooms)
    (hinv : LobbyInv st) :
    LobbyInv { st with rooms := rooms' } := by
  subst hrooms'
  obtain ⟨hb, hnd, hu⟩ := hinv
  have hmap : (updateFirst (fun r : Room => decide (r.room_id = rid))
      (fun r => { r with players := r.players.filter (fun p => p ≠ user) })
      st.rooms).map (fun r => r.room_id) = st.rooms.map (fun r => r.room_id) :=
    map_updateFirst_eq _ _ _ _ (fun x _ _ => rfl)
  refine ⟨fun i hi => hb i (hmap ▸ hi), hmap ▸ hnd, ?_⟩
  intro u
  unfold waitingCount
  apply le_trans ?_ (hu u)
  apply countP_updateFirst_le
  intro x hx hqx hpf
  simp only [decide_eq_true_eq] at hpf ⊢
  obtain ⟨hw, hm⟩ := hpf
  exact ⟨hw, (List.mem_filter.mp hm).1⟩

lemma inv_leave_all (st : LobbyState) (user : String) (rooms' : List Room)
    (hrooms' : rooms' = st.rooms.map (fun r =>
      if user ∈ r.players then
        { r with players := r.players.filter (fun p => p ≠ user) }
      else r))
    (hinv : LobbyInv st) :
    LobbyInv { st with rooms := rooms' } := by
  subst hrooms'
  obtain ⟨hb, hnd, hu⟩ := hinv
  have hmap : (st.rooms.map (fun r =>
      if user ∈ r.players then
        { r with players := r.players.filter (fun p => p ≠ user) }
      else r)).map (fun r => r.room_id) = st.rooms.map (fun r => r.room_id) := by
    apply map_map_eq
    intro x
    by_cases hm : user ∈ x.players <;> simp [hm]
  refine ⟨fun i hi => hb i (hmap ▸ hi), hmap ▸ hnd, ?_⟩
  intro u
  unfold waitingCount
  apply le_trans ?_ (hu u)
  apply countP_map_le
  intro x hx hpf
  by_cases hm : user ∈ x.players
  · rw [if_pos hm] at hpf
    simp only [decide_eq_true_eq] at hpf ⊢
    exact ⟨hpf.1, (List.mem_filter.mp hpf.2).1⟩
  · rw [if_neg hm] at hpf
    exact hpf

lemma create_room_inv (avail : Nat → Bool) (fuel : Nat) (lobby_host : String)
    (room_port_start : Nat) (game_name : String) (entryExists spawnOk : Bool)
    (st : LobbyState) (username : Option String) (max_players : Option Int)
    (version : Option String) (h : LobbyInv st) :
    LobbyInv (create_room avail fuel lobby_host room_port_start game_name
      entryExists spawnOk st username max_players version).1 := by
  simp only [create_room]
  split
  next hguard => exact inv_counter_bump st _ h (Nat.le_succ _)
  next hguard =>
    split
    next => exact inv_counter_bump st _ h (Nat.le_succ _)
    next port hfp =>
      split
      next => exact inv_counter_bump st _ h (Nat.le_succ _)
      next =>
        split
        next => exact inv_counter_bump st _ h (Nat.le_succ _)
        next =>
          exact inv_create_success st (pyStrOr username "host") _ rfl rfl h hguard

lemma join_room_inv (st : LobbyState) (room_id : Option Nat)
    (username : Option String) (h : LobbyInv st) :
    LobbyInv (join_room st room_id username).1 := by
  rcases room_id with _ | rid
  · exact h
  · rcases username with _ | user
    · exact h
    · simp only [join_room]
      split
      next => exact h
      next huser =>
        split
        next => exact h
        next hguard =>
          split
          next => exact h
          next room hfind =>
            split
            next => exact h
            next hwait =>
              split
              next => exact h
              next hfull =>
                refine inv_join_success st rid user room _ _ hfind hguard ?_ ?_ ?_ rfl h
                · by_cases hm : user ∈ room.players <;> simp [hm]
                · by_cases hm : user ∈ room.players <;> simp [hm]
                · intro v hv
                  by_cases hm : user ∈ room.players
                  · simp [hm]
                  · simp [hm, List.mem_append, hv]

lemma leave_room_inv (st : LobbyState) (room_id : Option Nat)
    (username : Option String) (h : LobbyInv st) :
    LobbyInv (leave_room st room_id username).1 := by
  rcases username with _ | user
  · exact h
  rcases room_id with _ | rid
  all_goals simp only [leave_room]
  all_goals repeat' split
  all_goals first
    | exact h
    | exact inv_leave_all st user _ rfl h
    | exact inv_leave_some st _ user _ rfl h

/-- Claim C6: in every lobby state reachable by `create_room`, `join_room`
    and `leave_room` from the empty lobby, each username appears in the
    players list of at most one `waiting` room. -/
theorem lobby_waiting_room_uniqueness (st : LobbyState) (h : LobbyReachable st)
    (u : String) :
    st.rooms.countP
      (fun r => decide (r.status = RoomStatus.waiting ∧ u ∈ r.players)) ≤ 1 := by
  have hinv : LobbyInv st := by
    induction h with
    | init => exact ⟨by simp, by simp, fun v => by simp [waitingCount]⟩
    | create st avail fuel lh rps gn eE sO un mp v _ ih =>
        exact create_room_inv avail fuel lh rps gn eE sO st un mp v ih
    | join st rid un _ ih => exact join_room_inv st rid un ih
    | leave st rid un _ ih => exact leave_room_inv st rid un ih
  exact hinv.2.2 u

/-- Claim C6 witness: the invariant evaluated after one concrete
    `create_room` followed by a `join_room`. -/
theorem lobby_waiting_room_uniqueness_witness :
    (join_room
        (create_room (fun _ => true) 1 "h" 12000 "g" true true
          { rooms := [], room_counter := 0 } (some "alice") (some 2) (some "1")).1
        (some 1) (some "bob")).1.rooms.countP
      (fun r => decide (r.status = RoomStatus.waiting ∧ "alice" ∈ r.players)) ≤ 1 :=
  lobby_waiting_room_uniqueness _
    (LobbyReachable.join _ (some 1) (some "bob")
      (LobbyReachable.create _ (fun _ => true) 1 "h" 12000 "g" true true
        (some "alice") (some 2) (some "1") LobbyReachable.init))
    "alice"

/-! ## Grid-game room server (`TTT_GUI/v1/run_room_server.py`)

    Sockets are identified by the username keying them in `connections`
    (values are irrelevant to the state evolution), so `connections` is the
    list of usernames with a live socket.  Whether a `sendall` raises for a
    given connection during a broadcast is the `sendFails` oracle. -/

/-- Authoritative per-match state (the `GameState` class). -/
structure GameState where
  board : List String
  players : List (String × String)
  connections : List String
  turn : Option String
  winner : Option String
  active : Bool
  play_again_votes : List (String × Bool)
  deriving DecidableEq, Repr

/-- The `GameState.remove_player` method: pop the user from `players`,
    `connections` and `play_again_votes`; null `turn` if it was theirs. -/
def remove_player (st : GameState) (username : String) : GameState :=
  { st with
    players := eraseAssoc st.players username
    connections := st.connections.erase username
    play_again_votes := eraseAssoc st.play_again_votes username
    turn := if st.turn = some username then none else st.turn }

/-- The `broadcast` function's effect on the state: users whose send fails
    are collected as `dead`, each is popped from `connections` and removed
    via `remove_player` (the explicit `connections.pop` is subsumed by
    `remove_player`'s own pop); if anyone died and fewer than two players
    remain, board, winner and votes are cleared and `turn` nulled. -/
def broadcast (sendFails : String → Bool) (st : GameState) : GameState :=
  let dead := st.connections.filter sendFails
  let st' := dead.foldl (fun s u => remove_player s u) st
  if dead ≠ [] ∧ st'.players.length < 2 then
    { st' with board := List.replicate 9 "", winner := none,
               play_again_votes := [], turn := none }
  else st'

/-- The disconnect path of `handle_client`'s `finally` block for a client
    that had joined: `remove_player` followed by `send_state` (a broadcast
    of the current state). -/
def eof_disconnect (sendFails : String → Bool) (st : GameState) (username : String) :
    GameState :=
  broadcast sendFails (remove_player st username)

/-- Well-formedness carried by the Python dicts: keys are unique. -/
def GameState.WF (st : GameState) : Prop :=
  (st.players.map Prod.fst).Nodup ∧ st.connections.Nodup ∧
  (st.play_again_votes.map Prod.fst).Nodup

/-- The user is gone from `players`, `connections` and `play_again_votes`. -/
def removedEverywhere (st : GameState) (u : String) : Prop :=
  (∀ p ∈ st.players, p.1 ≠ u) ∧ u ∉ st.connections ∧
  (∀ v ∈ st.play_again_votes, v.1 ≠ u)

lemma mem_eraseAssoc_sub {κ : Type} {α : Type} [DecidableEq κ]
    (l : List (κ × α)) (k : κ) (p : κ × α) (h : p ∈ eraseAssoc l k) : p ∈ l := by
  induction l with
  | nil => simp [eraseAssoc] at h
  | cons e rest ih =>
    by_cases he : e.1 = k
    · rw [eraseAssoc, if_pos he] at h
      exact List.mem_cons_of_mem e h
    · rw [eraseAssoc, if_neg he] at h
      rcases List.mem_cons.mp h with hp | hp
      · exact hp ▸ List.mem_cons_self e rest
      · exact List.mem_cons_of_mem e (ih hp)

lemma eraseAssoc_map_sublist {κ : Type} {α : Type} [DecidableEq κ]
    (l : List (κ × α)) (k : κ) :
    ((eraseAssoc l k).map Prod.fst).Sublist (l.map Prod.fst) := by
  induction l with
  | nil => simp [eraseAssoc]
  | cons e rest ih =>
    by_cases he : e.1 = k
    · rw [eraseAssoc, if_pos he, List.map_cons]
      exact (List.Sublist.refl _).cons _
    · rw [eraseAssoc, if_neg he, List.map_cons, List.map_cons]
      exact ih.cons₂ _

lemma eraseAssoc_not_mem_keys {κ : Type} {α : Type} [DecidableEq κ]
    (l : List (κ × α)) (k : κ) (h : (l.map Prod.fst).Nodup) :
    ∀ p ∈ eraseAssoc l k, p.1 ≠ k := by
  induction l with
  | nil => intro p hp; simp [eraseAssoc] at hp
  | cons e rest ih =>
    rw [List.map_cons, List.nodup_cons] at h
    by_cases he : e.1 = k
    · rw [eraseAssoc, if_pos he]
      intro p hp hpk
      exact h.1 (by rw [he, ← hpk]; exact List.mem_map_of_mem Prod.fst hp)
    · rw [eraseAssoc, if_neg he]
      intro p hp
      rcases List.mem_cons.mp hp with hpe | hpr
      · rw [hpe]; exact he
      · exact ih h.2 p hpr

lemma remove_player_WF (st : GameState) (u : String) (h : st.WF) :
    (remove_player st u).WF :=
  ⟨(eraseAssoc_map_sublist st.players u).nodup h.1,
    h.2.1.erase u,
    (eraseAssoc_map_sublist st.play_again_votes u).nodup h.2.2⟩

lemma remove_player_absent (st : GameState) (u : String) (h : st.WF) :
    removedEverywhere (remove_player st u) u :=
  ⟨eraseAssoc_not_mem_keys st.players u h.1,
    h.2.1.not_mem_erase,
    eraseAssoc_not_mem_keys st.play_again_votes u h.2.2⟩

lemma remove_player_preserves_absent (st : GameState) (u v : String)
    (h : removedEverywhere st v) : removedEverywhere (remove_player st u) v :=
  ⟨fun p hp => h.1 p (mem_eraseAssoc_sub _ _ _ hp),
    fun hm => h.2.1 (List.mem_of_mem_erase hm),
    fun p hp => h.2.2 p (mem_eraseAssoc_sub _ _ _ hp)⟩

lemma foldl_remove_WF (l : List String) (st : GameState) (h : st.WF) :
    (l.foldl (fun s u => remove_player s u) st).WF := by
  induction l generalizing st with
  | nil => exact h
  | cons x xs ih => exact ih _ (remove_player_WF st x h)

lemma foldl_remove_preserves_absent (l : List String) (st : GameState) (v : String)
    (h : removedEverywhere st v) :
    removedEverywhere (l.foldl (fun s u => remove_player s u) st) v := by
  induction l generalizing st with
  | nil => exact h
  | cons x xs ih => exact ih _ (remove_player_preserves_absent st x v h)

lemma foldl_remove_absent_of_mem (l : List String) (st : GameState) (v : String)
    (hwf : st.WF) (hv : v ∈ l) :
    removedEverywhere (l.foldl (fun s u => remove_player s u) st) v := by
  induction l generalizing st with
  | nil => simp at hv
  | cons x xs ih =>
    rcases List.mem_cons.mp hv with hvx | hvxs
    · subst hvx
      exact foldl_remove_preserves_absent xs _ v (remove_player_absent st v hwf)
    · exact ih _ (remove_player_WF st x hwf) hvxs

lemma broadcast_preserves_absent (sf : String → Bool) (st : GameState) (v : String)
    (h : removedEverywhere st v) : removedEverywhere (broadcast sf st) v := by
  simp only [broadcast]
  have h' := foldl_remove_preserves_absent (st.connections.filter sf) st v h
  split
  · exact ⟨h'.1, h'.2.1, by simp⟩
  · exact h'

/-- Mid-game state for the C4 scenario: two seated players, marks on the
    board, alice to move, alice has voted. -/
def ttt0 : GameState :=
  { board := ["X", "O", "", "", "", "", "", "", ""]
    players := [("alice", "X"), ("bob", "O")]
    connections := ["alice", "bob"]
    turn := some "alice"
    winner := none
    active := true
    play_again_votes := [("alice", true)] }

/-- Claim C4 counterexample: when bob's disconnect is detected as EOF on his
    own reader (the `finally` path), he is removed and a broadcast is sent,
    but with the remaining send succeeding nothing is cleared: the board
    keeps its marks, alice's vote survives and `turn` stays alice, although
    fewer than two players remain — contradicting the claim's clearing
    conjunct. -/
theorem eof_disconnect_does_not_clear_board :
    ¬ ((eof_disconnect (fun _ => false) ttt0 "bob").players.length < 2 →
       (eof_disconnect (fun _ => false) ttt0 "bob").board = List.replicate 9 "" ∧
       (eof_disconnect (fun _ => false) ttt0 "bob").winner = none ∧
       (eof_disconnect (fun _ => false) ttt0 "bob").play_again_votes = [] ∧
       (eof_disconnect (fun _ => false) ttt0 "bob").turn = none) := by
  decide

/-- Claim C4 (amended): a disconnecting player is always removed from
    `players`, `connections` and `play_again_votes` (both on the EOF path and
    when a broadcast send to them fails); the board/winner/votes clearing and
    `turn := null`, however, happen only when the disconnect is detected
    through a failed send inside `broadcast` and fewer than two players then
    remain — an EOF-detected disconnect broadcasts without clearing. -/
theorem disconnect_cleanup (st : GameState) (u : String) (sf : String → Bool)
    (hwf : st.WF) :
    removedEverywhere (eof_disconnect sf st u) u ∧
    (u ∈ st.connections → sf u = true →
      removedEverywhere (broadcast sf st) u ∧
      ((broadcast sf st).players.length < 2 →
        (broadcast sf st).board = List.replicate 9 "" ∧
        (broadcast sf st).winner = none ∧
        (broadcast sf st).play_again_votes = [] ∧
        (broadcast sf st).turn = none)) := by
  constructor
  · exact broadcast_preserves_absent sf (remove_player st u) u
      (remove_player_absent st u hwf)
  · intro hu hsf
    have hdead : u ∈ st.connections.filter sf := List.mem_filter.mpr ⟨hu, hsf⟩
    have hne : st.connections.filter sf ≠ [] := List.ne_nil_of_mem hdead
    have habs : removedEverywhere
        ((st.connections.filter sf).foldl (fun s v => remove_player s v) st) u :=
      foldl_remove_absent_of_mem _ st u hwf hdead
    constructor
    · simp only [broadcast]
      split
      · exact ⟨habs.1, habs.2.1, by simp⟩
      · exact habs
    · intro hlen
      simp only [broadcast] at hlen ⊢
      by_cases hcond : st.connections.filter sf ≠ [] ∧
          ((st.connections.filter sf).foldl (fun s v => remove_player s v) st).players.length < 2
      · rw [if_pos hcond] at hlen ⊢
        exact ⟨rfl, rfl, rfl, rfl⟩
      · rw [if_neg hcond] at hlen
        exact absurd ⟨hne, hlen⟩ hcond

/-- Claim C4 witness: the amended behavior at the concrete mid-game state,
    with bob's send failing during a broadcast. -/
theorem disconnect_cleanup_witness :
    (ttt0.WF ∧ "bob" ∈ ttt0.connections ∧
      (fun v : String => decide (v = "bob")) "bob" = true) ∧
    (removedEverywhere
        (eof_disconnect (fun v : String => decide (v = "bob")) ttt0 "bob") "bob" ∧
      (removedEverywhere
          (broadcast (fun v : String => decide (v = "bob")) ttt0) "bob" ∧
        ((broadcast (fun v : String => decide (v = "bob")) ttt0).players.length < 2 →
          (broadcast (fun v : String => decide (v = "bob")) ttt0).board =
            List.replicate 9 "" ∧
          (broadcast (fun v : String => decide (v = "bob")) ttt0).winner = none ∧
          (broadcast (fun v : String => decide (v = "bob")) ttt0).play_again_votes = [] ∧
          (broadcast (fun v : String => decide (v = "bob")) ttt0).turn = none))) :=
  ⟨⟨⟨by decide, by decide, by decide⟩, by decide, by decide⟩,
    (disconnect_cleanup ttt0 "bob" (fun v : String => decide (v = "bob"))
        ⟨by decide, by decide, by decide⟩).1,
    (disconnect_cleanup ttt0 "bob" (fun v : String => decide (v = "bob"))
        ⟨by decide, by decide, by decide⟩).2 (by decide) (by decide)⟩
